import Mathlib

/-!
Verification development for the belvi CT log monitor.

The definitions below are a shallow embedding of the Rust sources of the
repository:

* `src/belvi_ct_scan/src/fetch_certs/batcher.rs` — the per-log batcher state
  machine (`HistState`, `merge_adjacent_ranges`, `merge_fetched`,
  `next_batch` / `extend_range`);
* `src/belvi_ct_scan/src/update_sths.rs` — the STH updater;
* `src/belvi_ct_scan/src/log_data.rs` — the binary entry codec
  (`MerkleTreeLeaf`, `TimestampedEntry`);
* `src/belvi_cert/src/lib.rs` — the certificate domain extractor;
* `src/belvi_log_list/src/lib.rs` — `Log::has_active_certs`;
* `src/belvi_ct_scan/src/fetch_certs.rs` — the persisted `log_entries` row.

Machine integers (`u64`, `u8`, `u16`) are modelled as `Nat`.  Every value the
code stores in them is below `2 ^ 64`; `saturating_sub` coincides with
truncated `Nat` subtraction, and the plain (overflow-checked) Rust
subtraction is modelled by `checkedSub`, which returns the panic of a debug
build as an `Except.error`.  Rust `panic!` / `expect` / failed slice indexing
are likewise modelled as `Except`/`POut` error outcomes, so that a theorem
can distinguish a normal return, a named parse error, and a crash.
-/

namespace Belvi

/-- Overflow-checked `u64` subtraction: Rust's `a - b`, which panics on
underflow. -/
def checkedSub (a b : Nat) : Except String Nat :=
  if b ≤ a then .ok (a - b) else .error "attempt to subtract with overflow"

/-! ## Batcher (`src/belvi_ct_scan/src/fetch_certs/batcher.rs`) -/

/-- Constant `MAX_PAGE_SIZE` from `batcher.rs`: initially request
certificates in batches of this size. -/
def MAX_PAGE_SIZE : Nat := 1000

/-- Constant `FETCHES_FOR_SMALLER_PAGES` from `batcher.rs`. -/
def FETCHES_FOR_SMALLER_PAGES : Nat := 10

/-- Constant `MIN_HISTORY` from `batcher.rs`: we always want at least the
last N certs for every log. -/
def MIN_HISTORY : Nat := 5000

/-- The per-log fetched-ranges state machine, `HistState` in `batcher.rs`.
Ranges are inclusive `(start, end)` pairs of `u64` tree indices. -/
inductive HistState where
  | NothingFetched : HistState
  | FillingHistGap (hist_gap : Nat × Nat) (fetching : Nat × Nat) : HistState
  | Fetching (r : Nat × Nat) : HistState
  deriving DecidableEq

/-- Translation of `HistState::merge_adjacent_ranges`.  The second adjacency
test `a2 == (b1 - 1)` uses plain `u64` subtraction, so `b1 = 0` underflows
(a checked-arithmetic panic); the test is only evaluated when the first one
fails, which the `do`-sequencing reproduces. -/
def HistState.merge_adjacent_ranges (a : Nat × Nat) (b : Nat × Nat) :
    Except String (Option (Nat × Nat)) :=
  if a.1 = b.2 + 1 then
    -- going forwards
    .ok (some (b.1, a.2))
  else do
    let t ← checkedSub b.1 1
    if a.2 = t then
      -- going backwards
      .ok (some (a.1, b.2))
    else
      .ok none

/-- Translation of `HistState::merge_fetched`.  The `expect` on a
non-adjacent range while filling the history gap is the `Except.error`
branch. -/
def HistState.merge_fetched (self : HistState) (new_range : Nat × Nat) :
    Except String HistState :=
  match self with
  | .NothingFetched => .ok (.Fetching new_range)
  | .Fetching fetched => do
      match ← HistState.merge_adjacent_ranges fetched new_range with
      | some updated => .ok (.Fetching updated)
      | none => .ok (.FillingHistGap new_range fetched)
  | .FillingHistGap hist_gap fetching => do
      let merged ← HistState.merge_adjacent_ranges hist_gap new_range
      match merged with
      | none => .error "non adjacent range when filling hist gap"
      | some hist_gap => do
          match ← HistState.merge_adjacent_ranges hist_gap fetching with
          | some combined => .ok (.Fetching combined)
          | none => .ok (.FillingHistGap hist_gap fetching)

/-- The in-memory per-log counters, `LogTransient` in `main.rs`. -/
structure LogTransient where
  fetches : Nat
  highest_page_size : Nat

/-- The `Default` impl for `LogTransient` in `main.rs`:
`fetches = 0`, `highest_page_size = u64::MAX`. -/
def LogTransient.default : LogTransient :=
  { fetches := 0, highest_page_size := 2 ^ 64 - 1 }

/-- Translation of the inner helper `extend_range` of
`FetchState::next_batch`.  `saturating_sub` is the truncated `Nat`
subtraction; `cur_start - 1` is a plain (checked) subtraction; the
`Ordering::Greater` arm is the `panic!`. -/
def extend_range (cur_start cur_end endpoint : Nat) :
    Except String (Option (Nat × Nat)) :=
  if cur_end = endpoint then
    -- we have got to the endpoint
    let desired_start := cur_end - MIN_HISTORY
    if desired_start < cur_start then do
      let s ← checkedSub cur_start 1
      .ok (some (max (cur_start - MIN_HISTORY) (cur_start - MAX_PAGE_SIZE), s))
    else
      .ok none
  else if cur_end < endpoint then
    -- need to fetch to get up to the endpoint
    .ok (some (cur_end + 1, min endpoint (cur_end + MAX_PAGE_SIZE)))
  else
    .error "impossible, cur_end is past endpoint"

/-- Translation of `FetchState::next_batch` (`batcher.rs`).  The per-log
state lookup (`log_states.get(&id).expect(..)`) is elided: `fetched_to` and
`sth_tree_size` are the fields of the looked-up `LogFetchState`, and
`transient` the entry of `ctx.log_transient` (defaulted by the caller).
`page_size - 1` is a plain (checked) `u64` subtraction. -/
def next_batch (transient : LogTransient) (sth_tree_size : Nat)
    (fetched_to : HistState) : Except String (Option (Nat × Nat)) :=
  let page_size :=
    if FETCHES_FOR_SMALLER_PAGES < transient.fetches then
      transient.highest_page_size
    else
      MAX_PAGE_SIZE
  -- subtract 1 to account for 0-indexing (saturating)
  let tree_size := sth_tree_size - 1
  match fetched_to with
  | .NothingFetched => do
      -- initial fetch: one page from the beginning
      let p ← checkedSub page_size 1
      .ok (some (tree_size - p, tree_size))
  | .Fetching (cur_start, cur_end) => extend_range cur_start cur_end tree_size
  | .FillingHistGap (hist_gap_start, hist_gap_end) (fetching_start, _) => do
      let e ← checkedSub fetching_start 1
      extend_range hist_gap_start hist_gap_end e

/-- Every range stored in a `HistState` ends at or below `ts` (the bound the
spec states for `fetched_to`). -/
def rangesEndBounded (s : HistState) (ts : Nat) : Bool :=
  match s with
  | .NothingFetched => true
  | .Fetching (_, hi) => hi ≤ ts
  | .FillingHistGap (_, b) (_, d) => b ≤ ts && d ≤ ts

/-- Well-formedness of a `HistState` per the spec's data-model invariants:
each stored range satisfies `lo ≤ hi`, and in `FillingHistGap` the gap ends
strictly before the fetching range starts. -/
def wellFormed (s : HistState) : Bool :=
  match s with
  | .NothingFetched => true
  | .Fetching (lo, hi) => lo ≤ hi
  | .FillingHistGap (a, b) (c, d) => a ≤ b && c ≤ d && b < c

/-! ## Persisted `log_entries` row (`src/belvi_ct_scan/src/fetch_certs.rs`) -/

/-- Value bound by a `rusqlite::params![]` list: a blob or an integer. -/
inductive SqlValue where
  | blob (bytes : List Nat) : SqlValue
  | int (i : Nat) : SqlValue
  deriving DecidableEq

/-- Column list of the prepared `log_entries` insert at
`fetch_certs.rs:212-215`:
`INSERT OR IGNORE INTO log_entries (leaf_hash, log_id, ts) VALUES (?, ?, ?)`. -/
def logEntriesInsertColumns : List String := ["leaf_hash", "log_id", "ts"]

/-- Modelled from the spec: the repository's schema file `init_db.sql`
(referenced by `include_str!` in `main.rs`) is not under `src/`; the spec
gives the prepared insert as
`INSERT OR IGNORE INTO log_entries(leaf_hash, log_id, ts, idx)`, matching
the `SELECT log_id, idx FROM log_entries` query in
`belvi_frontend/src/main.rs`. -/
def specLogEntriesInsertColumns : List String := ["leaf_hash", "log_id", "ts", "idx"]

/-- Parameters bound by
`entry_insert.execute(rusqlite::params![leaf_hash, id.num(), log_timestamp])`
at `fetch_certs.rs:271-273`.  The loop variable `idx` — the entry's tree
index, `idx as u64 + start` (line 223) — is in scope in the loop body but is
not bound by the insert. -/
def entryInsertParams (leaf_hash : List Nat) (log_id_num : Nat)
    (log_timestamp : Nat) (idx : Nat) : List SqlValue :=
  [.blob leaf_hash, .int log_id_num, .int log_timestamp]

/-! ## Entry codec (`src/belvi_ct_scan/src/log_data.rs`) -/

/-- The named parse errors, `CTParseError` in `log_data.rs`.  The payloads
of `Base64Error` / `JsonError` (foreign library error values) are modelled
as strings. -/
inductive CTParseError where
  | GetEntriesRootNotObject : CTParseError
  | GetEntriesNoEntriesArray : CTParseError
  | GetEntriesEntryNoLeafInput : CTParseError
  | GetEntriesEntryNoExtraData : CTParseError
  | GetEntriesEntryNotObject : CTParseError
  | MerkleTreeLeafTooShort : CTParseError
  | MerkleTreeLeafUnknownLeafType : CTParseError
  | TimestampedEntryTooShort : CTParseError
  | LogEntryUnknownEntryType : CTParseError
  | Base64Error (msg : String) : CTParseError
  | JsonError (msg : String) : CTParseError
  deriving DecidableEq

/-- Outcome of a Rust parse function: a value, a named `CTParseError`
(`Err`), or a panic (failed assertion or out-of-range slice index). -/
inductive POut (α : Type) where
  | ok (a : α) : POut α
  | err (e : CTParseError) : POut α
  | panic (msg : String) : POut α
  deriving DecidableEq

/-- Big-endian byte-string to integer (`u64::from_be_bytes` /
`u16::from_be_bytes`). -/
def beBytesToNat (l : List Nat) : Nat :=
  l.foldl (fun acc b => acc * 256 + b) 0

/-- `CtExtensions` from `log_data.rs` (a newtype over `Vec<u8>`). -/
structure CtExtensions where
  bytes : List Nat
  deriving DecidableEq

/-- `LogEntry` from `log_data.rs`. -/
inductive LogEntry where
  | X509 (cert : List Nat) : LogEntry
  | Precert (issuer_key_hash : List Nat) (tbs_certificate : List Nat) : LogEntry
  deriving DecidableEq

/-- `LogEntry::inner_cert`. -/
def LogEntry.inner_cert : LogEntry → List Nat
  | .X509 cert => cert
  | .Precert _ cert => cert

/-- `TimestampedEntry` from `log_data.rs`. -/
structure TimestampedEntry where
  timestamp : Nat
  log_entry : LogEntry
  extensions : CtExtensions
  deriving DecidableEq

/-- Translation of `TimestampedEntry::parse` (`log_data.rs:103-134`).
Byte strings are `List Nat`.  Rust slicing `v[i..]` panics when
`i > v.len()`, which the explicit length guards reproduce; the two
`assert!` calls on the trailing CT-extensions bytes are the
`"TODO: extensions"` panics. -/
def TimestampedEntry.parse (v : List Nat) : POut TimestampedEntry :=
  if v.length ≤ 11 then .err .TimestampedEntryTooShort
  else
    let timestamp := beBytesToNat (v.take 8)
    let entry_type := beBytesToNat ((v.drop 8).take 2)
    if entry_type = 0 then
      -- just skip the next 3 bytes
      if 13 ≤ v.length then
        .ok ⟨timestamp, .X509 (v.drop 13), ⟨[]⟩⟩
      else
        .panic "range start index out of range"
    else if entry_type = 1 then
      if v.length ≤ 43 then .err .TimestampedEntryTooShort
      else if v.getD (v.length - 1) 0 ≠ 0 then .panic "TODO: extensions"
      else if v.getD (v.length - 2) 0 ≠ 0 then .panic "TODO: extensions"
      else if 45 ≤ v.length then
        -- issuer_key_hash = v[10..=41]; skip 4 bytes; rest is the TBS
        .ok ⟨timestamp, .Precert ((v.drop 10).take 32) (v.drop 45), ⟨[]⟩⟩
      else
        .panic "range start index out of range"
    else .err .LogEntryUnknownEntryType

/-- `MerkleTreeLeaf` from `log_data.rs`. -/
structure MerkleTreeLeaf where
  version : Nat
  timestamped_entry : TimestampedEntry
  deriving DecidableEq

/-- Translation of `MerkleTreeLeaf::parse` (`log_data.rs:165-180`). -/
def MerkleTreeLeaf.parse (v : List Nat) : POut MerkleTreeLeaf :=
  if v.length ≤ 3 then .err .MerkleTreeLeafTooShort
  else
    let version := v.getD 0 0
    let leaf_type := v.getD 1 0
    if leaf_type ≠ 0 then .err .MerkleTreeLeafUnknownLeafType
    else
      match TimestampedEntry.parse (v.drop 2) with
      | .ok te => .ok ⟨version, te⟩
      | .err e => .err e
      | .panic m => .panic m

/-! ## Log registry (`src/belvi_log_list/src/lib.rs`)

RFC 3339 timestamp strings are modelled as their parsed Unix timestamps in
seconds (the `DateTime::parse_from_rfc3339(..).expect(..)` conversion);
fields not read by `Log::has_active_certs` (`description`, `log_id`, `key`,
`url`, `mmd`, the read-only `final_tree_head`, the interval's
`start_inclusive` bound) carry no behaviour and are kept only where the
function destructures them. -/

/-- `LogState` from `belvi_log_list`; each state carries its timestamp. -/
inductive LogState where
  | Usable (timestamp : Int) : LogState
  | Retired (timestamp : Int) : LogState
  | ReadOnly (timestamp : Int) : LogState
  deriving DecidableEq

/-- `TemporalInterval` from `belvi_log_list`. -/
structure TemporalInterval where
  start_inclusive : Int
  end_exclusive : Int
  deriving DecidableEq

/-- The fields of `Log` read by `has_active_certs`. -/
structure Log where
  state : LogState
  temporal_interval : Option TemporalInterval
  deriving DecidableEq

/-- Constant `OLD_MAX_CERT_DURATION` (days) from `has_active_certs`. -/
def OLD_MAX_CERT_DURATION : Int := 825

/-- Constant `NEW_MAX_CERT_DURATION` (days) from `has_active_certs`. -/
def NEW_MAX_CERT_DURATION : Int := 398

/-- Constant `CERT_DURATION_SWITCH` from `has_active_certs`:
Dec. 6, 2022 as a Unix timestamp. -/
def CERT_DURATION_SWITCH : Int := 1670302800

/-- Translation of the inner helper `no_new_valid` of
`Log::has_active_certs`: `Duration::days(n)` adds `n * 86400` seconds. -/
def no_new_valid (timestamp now : Int) : Bool :=
  let extra_days :=
    if now > CERT_DURATION_SWITCH then NEW_MAX_CERT_DURATION
    else OLD_MAX_CERT_DURATION
  let oldest_certs_expiration := timestamp + extra_days * 86400
  oldest_certs_expiration > now

/-- Translation of `Log::has_active_certs` (`belvi_log_list/src/lib.rs:
121-166`). -/
def Log.has_active_certs (log : Log) (now : Int) : Bool :=
  match log.temporal_interval with
  | some ti =>
    match log.state with
    | .Retired _ => false
    | _ => now < ti.end_exclusive
  | none =>
    match log.state with
    -- log isn't up anymore
    | .Retired _ => false
    -- timestamp is time when log started
    | .Usable _ => true
    -- timestamp is point when certs stop being accepted
    | .ReadOnly timestamp => no_new_valid timestamp now

/-- Whether a `LogState` is retired. -/
def LogState.isRetired : LogState → Bool
  | .Retired _ => true
  | _ => false

/-- The maximum certificate duration in days as C9 states it: 825 days
before the 2022-12-06 switch, 398 days after. -/
def maxCertDurationDays (now : Int) : Int :=
  if now > CERT_DURATION_SWITCH then 398 else 825

/-- The fetchability predicate exactly as claim C9 words it: not retired,
AND (no temporal interval OR `now` before the interval's exclusive end),
AND (read-only ⇒ timestamp + max-cert-duration later than `now`). -/
def specFetchable (log : Log) (now : Int) : Prop :=
  log.state.isRetired = false ∧
  (match log.temporal_interval with
    | none => True
    | some ti => now < ti.end_exclusive) ∧
  (match log.state with
    | .ReadOnly ts => ts + maxCertDurationDays now * 86400 > now
    | _ => True)

/-! ## Certificate decoder (`src/belvi_cert/src/lib.rs`)

The decoder walks structures produced by the external `x509-certificate`
and `bcder` crates.  BER byte streams are modelled as already-decoded
structured values: an attribute value / SAN element is a `BerValue` (a tag
plus, for primitives, its content octets); `Constructed::decode` of a
single tagged value is `take_tagged_ber` on that value.  Inside
`ber_to_string`, however, the *content octets* are re-parsed as a complete
BER TLV by the bcder calls `Utf8String::take_from` / `Ia5String::take_from`;
`berTlv` models that byte-level parse for primitive definite-length
encodings (the character-set validation and the rare constructed or
indefinite-length string forms of the external crate are not modelled — for
content that is not a TLV the function is the identity either way, which is
the path every ordinary domain string takes). -/

/-- A BER tag: context-specific (`CTX_n`) or universal (`Utf8String` is
universal 12, `Ia5String` universal 22, `PrintableString` universal 19). -/
inductive BerTag where
  | ctx (n : Nat) : BerTag
  | universal (n : Nat) : BerTag
  deriving DecidableEq

/-- A decoded BER value: a primitive with content octets, or a constructed
value (whose children `take_tagged_ber` never inspects). -/
inductive BerValue where
  | prim (tag : BerTag) (content : List Nat) : BerValue
  | constructed (tag : BerTag) : BerValue
  deriving DecidableEq

/-- The two `bcder::decode::Error` variants the decoder distinguishes. -/
inductive DecodeError where
  | Malformed : DecodeError
  | Unimplemented : DecodeError
  deriving DecidableEq

/-- Parse `bytes` as one complete primitive BER TLV with tag byte
`tagByte` (definite length, short or long form), returning its content. -/
def berTlv (tagByte : Nat) (bytes : List Nat) : Option (List Nat) :=
  match bytes with
  | t :: l :: rest =>
    if t = tagByte then
      if l < 128 then
        if rest.length = l then some rest else none
      else if l = 129 then
        match rest with
        | n :: rest2 => if rest2.length = n then some rest2 else none
        | [] => none
      else if l = 130 then
        match rest with
        | n1 :: n2 :: rest2 =>
          if rest2.length = n1 * 256 + n2 then some rest2 else none
        | _ => none
      else none
    else none
  | _ => none

/-- Translation of `ber_to_string`: try to decode the content octets as a
complete `Utf8String` (tag 12) then `Ia5String` (tag 22) TLV; if both fail,
take the raw bytes. -/
def ber_to_string (bytes : List Nat) : List Nat :=
  match berTlv 12 bytes with
  | some content => content
  | none =>
    match berTlv 22 bytes with
    | some content => content
    | none => bytes

/-- Translation of `take_tagged_ber`: accept a primitive value tagged
`CTX_1` (email), `CTX_2` (DNS name) or `CTX_6` (URI); any other primitive
tag is `Unimplemented` (e.g. `CTX_7`, IP address); constructed content is
`Malformed`. -/
def take_tagged_ber (v : BerValue) : Except DecodeError (List Nat) :=
  match v with
  | .prim tag content =>
    if tag = .ctx 1 ∨ tag = .ctx 2 ∨ tag = .ctx 6 then
      .ok (ber_to_string content)
    else
      .error .Unimplemented
  | .constructed _ => .error .Malformed

/-- Translation of the `loop` inside the subjectAltName sequence decode:
take tagged values, skipping `Unimplemented` ones, until a `Malformed`
error stops the loop (running out of sequence elements also surfaces as
`Malformed` from `take_value`, the `[]` base case). -/
def san_loop : List BerValue → List (List Nat)
  | [] => []
  | v :: rest =>
    match take_tagged_ber v with
    | .ok dom => dom :: san_loop rest
    | .error .Malformed => []
    | .error .Unimplemented => san_loop rest

/-- An `AttributeTypeAndValue` of the subject: the attribute type OID as
its DER-encoded bytes (`attr.typ.as_ref()`), and the attribute value. -/
structure AttributeTypeAndValue where
  typ : List Nat
  value : BerValue
  deriving DecidableEq

/-- The value of an extension, as seen by the SAN decode: a SEQUENCE of
BER values, or something that fails `take_sequence`. -/
inductive ExtnValue where
  | seq (elems : List BerValue) : ExtnValue
  | notSeq : ExtnValue
  deriving DecidableEq

/-- An X.509 extension: OID bytes (`ext.id.as_ref()`) and value. -/
structure Extension where
  id : List Nat
  value : ExtnValue
  deriving DecidableEq

/-- The fields of a TBS certificate read by `get_cert_domains`: the subject
(a list of relative distinguished names, each a list of attributes) and the
optional extensions list. -/
structure TbsCertificate where
  subject : List (List AttributeTypeAndValue)
  extensions : Option (List Extension)
  deriving DecidableEq

/-- Translation of `get_cert_domains` (`belvi_cert/src/lib.rs:9-51`): push
each commonName (OID `2.5.4.3` = bytes `[85, 4, 3]`) attribute value that
decodes under the tagged-BER rule, in subject traversal order; then, for
each subjectAltName extension (OID `2.5.29.17` = bytes `[85, 29, 17]`)
whose value is a SEQUENCE, push the values the SAN loop accepts, in
SEQUENCE order (an invalid SAN extension is only warned about). -/
def get_cert_domains (cert : TbsCertificate) : List (List Nat) :=
  let domains := cert.subject.foldl (fun acc rdn =>
    rdn.foldl (fun acc2 attr =>
      if attr.typ = [85, 4, 3] then
        match take_tagged_ber attr.value with
        | .ok dom => acc2 ++ [dom]
        | .error _ => acc2
      else acc2) acc) []
  match cert.extensions with
  | none => domains
  | some exts => exts.foldl (fun acc ext =>
      if ext.id = [85, 29, 17] then
        match ext.value with
        | .seq elems => acc ++ san_loop elems
        | .notSeq => acc
      else acc) domains

/-- The commonName-derived domains as claim C8 words them: the commonName
values (those accepted by the tagged-BER rule) in subject traversal
order. -/
def cn_domains (cert : TbsCertificate) : List (List Nat) :=
  cert.subject.flatMap (fun rdn =>
    rdn.filterMap (fun attr =>
      if attr.typ = [85, 4, 3] then (take_tagged_ber attr.value).toOption
      else none))

/-- Whether a SAN element stops the loop (`Malformed`, i.e. constructed). -/
def isMalformedElem (v : BerValue) : Bool :=
  match take_tagged_ber v with
  | .error .Malformed => true
  | _ => false

/-- The accepted SAN values of one SEQUENCE as claim C8 words them: the
email/DNS/URI-tagged values in SEQUENCE order, up to the first element
that stops the loop. -/
def san_accepted (elems : List BerValue) : List (List Nat) :=
  (elems.takeWhile (fun v => ! isMalformedElem v)).filterMap
    (fun v => (take_tagged_ber v).toOption)

/-- The SAN-derived domains of a certificate: the accepted values of every
subjectAltName extension, in order. -/
def san_domains (cert : TbsCertificate) : List (List Nat) :=
  match cert.extensions with
  | none => []
  | some exts => exts.flatMap (fun ext =>
      if ext.id = [85, 29, 17] then
        match ext.value with
        | .seq elems => san_accepted elems
        | .notSeq => []
      else [])

/-- ASCII string to byte list. -/
def strBytes (s : String) : List Nat := s.data.map Char.toNat

/-- Modelled from the spec: the test certificate `ttw.der` is not under
`src/` (only the tests naming it are).  Per the spec it is a multi-SAN
Cloudflare certificate whose decoded domain list is exactly
`["*.smitop.com", "sni.cloudflaressl.com", "smitop.com"]`: three DNS
(`CTX_2`) SAN values in that SEQUENCE order, and a commonName that is a
universal `PrintableString` (tag 19) — not context-tagged, hence skipped by
the tagged-BER rule. -/
def ttwTbs : TbsCertificate :=
  { subject := [[{ typ := [85, 4, 3],
                   value := .prim (.universal 19)
                     (strBytes "sni.cloudflaressl.com") }]],
    extensions := some [
      { id := [85, 29, 17],
        value := .seq [
          .prim (.ctx 2) (strBytes "*.smitop.com"),
          .prim (.ctx 2) (strBytes "sni.cloudflaressl.com"),
          .prim (.ctx 2) (strBytes "smitop.com")] }] }

/-! ## STH updater (`src/belvi_ct_scan/src/update_sths.rs`) -/

/-- `LogSth` from `log_data.rs`. -/
structure LogSth where
  tree_size : Nat
  timestamp : Nat
  sha256_root_hash : String
  tree_head_signature : String
  deriving DecidableEq

/-- `FetchError` from `main.rs`: a transport error or a non-OK status. -/
inductive FetchError where
  | Reqwest (msg : String) : FetchError
  | BadStatus : FetchError
  deriving DecidableEq

/-- One iteration of the `update_sths` loop (`update_sths.rs:13-47`) for a
single log: `fetched` is the result of `ctx.fetcher.fetch_sth(log)`, `cur`
the log's previously recorded STH, if any.  The `.expect("Failed to fetch
log STH, bailing")` is the `Except.error` (a process panic).  On success the
new STH is always stored; the returned `Bool` records whether the
append-only violation branch (`error!` logging, non-fatal) was taken. -/
def update_sth_one (fetched : Except FetchError LogSth) (cur : Option LogSth) :
    Except String (LogSth × Bool) :=
  match fetched with
  | .error _ => .error "Failed to fetch log STH, bailing"
  | .ok new_sth =>
    match cur with
    | some old_sth =>
        .ok (new_sth, decide (old_sth.tree_size > new_sth.tree_size) ||
          decide (old_sth.timestamp > new_sth.timestamp))
    | none => .ok (new_sth, false)

end Belvi

deriving instance DecidableEq for Except

namespace Belvi

theorem exbind_ok {ε α β : Type} (a : α) (f : α → Except ε β) :
    (Except.ok a : Except ε α) >>= f = f a := rfl

theorem exbind_err {ε α β : Type} (e : ε) (f : α → Except ε β) :
    (Except.error e : Except ε α) >>= f = Except.error e := rfl

/-- Merging a range adjacent below the current `Fetching` range extends it
downward. -/
theorem merge_fetched_below (a1 a2 b1 b2 : Nat) (h : a1 = b2 + 1) :
    HistState.merge_fetched (.Fetching (a1, a2)) (b1, b2) =
      .ok (.Fetching (b1, a2)) := by
  simp only [HistState.merge_fetched, HistState.merge_adjacent_ranges, h, if_pos]
  rfl

/-- Merging a range adjacent above the current `Fetching` range extends it
upward. -/
theorem merge_fetched_above (a1 a2 b1 b2 : Nat) (h : a1 ≠ b2 + 1)
    (h2 : b1 = a2 + 1) :
    HistState.merge_fetched (.Fetching (a1, a2)) (b1, b2) =
      .ok (.Fetching (a1, b2)) := by
  simp only [HistState.merge_fetched, HistState.merge_adjacent_ranges, checkedSub]
  rw [if_neg h, if_pos (by omega : 1 ≤ b1), exbind_ok,
    if_pos (by omega : a2 = b1 - 1)]
  rfl

/-- Merging a non-adjacent range starting at index ≥ 1 opens a
`FillingHistGap` with the old range in the fetching role. -/
theorem merge_fetched_gap (a1 a2 b1 b2 : Nat) (h : a1 ≠ b2 + 1)
    (h2 : b1 ≠ a2 + 1) (h3 : 1 ≤ b1) :
    HistState.merge_fetched (.Fetching (a1, a2)) (b1, b2) =
      .ok (.FillingHistGap (b1, b2) (a1, a2)) := by
  simp only [HistState.merge_fetched, HistState.merge_adjacent_ranges, checkedSub]
  rw [if_neg h, if_pos h3, exbind_ok, if_neg (by omega : ¬ a2 = b1 - 1)]
  rfl

/-- C1 counterexample: in the backfill trace with `tree_size = 10_000` and
default transients, once the state is `Fetching((5000, 9999))` the code does
not return `None`: `cur_end - cur_start = 4999 < MIN_HISTORY`, so it returns
one more backfill page `(4000, 4999)`. -/
theorem c1_counterexample :
    next_batch LogTransient.default 10000 (.Fetching (5000, 9999)) =
      .ok (some (4000, 4999)) ∧
    next_batch LogTransient.default 10000 (.Fetching (5000, 9999)) ≠
      .ok none := by
  decide

/-- C1 (amended): cold-start trace for a log whose STH has
`tree_size = 10_000` with no adaptive page-size cap.  `next_batch` on
`NothingFetched` returns `(9000, 9999)`; after merging each successful
fetch, on `Fetching((9000, 9999))` it returns `(8000, 8999)`, on
`Fetching((8000, 9999))` it returns `(7000, 7999)`; on
`Fetching((5000, 9999))` it still returns a backfill page `(4000, 4999)`
(the code requires `cur_end - cur_start ≥ MIN_HISTORY` to stop), and only
once the state is `Fetching((4000, 9999))` does it return `None`. -/
theorem c1_backfill_trace :
    next_batch LogTransient.default 10000 .NothingFetched =
      .ok (some (9000, 9999)) ∧
    HistState.merge_fetched .NothingFetched (9000, 9999) =
      .ok (.Fetching (9000, 9999)) ∧
    next_batch LogTransient.default 10000 (.Fetching (9000, 9999)) =
      .ok (some (8000, 8999)) ∧
    HistState.merge_fetched (.Fetching (9000, 9999)) (8000, 8999) =
      .ok (.Fetching (8000, 9999)) ∧
    next_batch LogTransient.default 10000 (.Fetching (8000, 9999)) =
      .ok (some (7000, 7999)) ∧
    HistState.merge_fetched (.Fetching (8000, 9999)) (7000, 7999) =
      .ok (.Fetching (7000, 9999)) ∧
    next_batch LogTransient.default 10000 (.Fetching (5000, 9999)) =
      .ok (some (4000, 4999)) ∧
    HistState.merge_fetched (.Fetching (5000, 9999)) (4000, 4999) =
      .ok (.Fetching (4000, 9999)) ∧
    next_batch LogTransient.default 10000 (.Fetching (4000, 9999)) =
      .ok none := by
  decide

/-- C3: for every state `Fetching((lo, hi))` with `hi` strictly below the
highest valid index `sth.tree_size - 1`, `next_batch` returns the forward
extension `(hi + 1, min(tree_size, hi + MAX_PAGE_SIZE))`, with
`MAX_PAGE_SIZE = 1000`, for any transient counters. -/
theorem c3_forward_extension (tr : LogTransient) (ts0 lo hi : Nat)
    (h : hi < ts0 - 1) :
    next_batch tr ts0 (.Fetching (lo, hi)) =
      .ok (some (hi + 1, min (ts0 - 1) (hi + MAX_PAGE_SIZE))) := by
  show extend_range lo hi (ts0 - 1) = _
  unfold extend_range
  rw [if_neg (by omega : ¬ hi = ts0 - 1), if_pos h]

/-- C3 witness: `Fetching((0, 5))` with `tree_size = 100` extends forward to
`(6, 99)`. -/
theorem c3_forward_extension_witness :
    next_batch LogTransient.default 100 (.Fetching (0, 5)) =
      .ok (some (6, 99)) := by
  have h := c3_forward_extension LogTransient.default 100 0 5 (by decide)
  simpa using h

/-- C4 counterexample: `merge_fetched` on `Fetching((10, 20))` with the
non-adjacent new range `(0, 5)` does not open a `FillingHistGap`: the
adjacency test `a2 == b1 - 1` underflows (`0 - 1` on `u64`), a panic. -/
theorem c4_counterexample :
    HistState.merge_fetched (.Fetching (10, 20)) (0, 5) =
      .error "attempt to subtract with overflow" ∧
    HistState.merge_fetched (.Fetching (10, 20)) (0, 5) ≠
      .ok (.FillingHistGap (0, 5) (10, 20)) := by
  decide

/-- C4 (amended): `merge_fetched` on `Fetching((10, 20))` with `(21, 30)`
yields `Fetching((10, 30))`, with `(5, 9)` yields `Fetching((5, 20))`, with
`(40, 50)` yields `FillingHistGap{ fetching: (10, 20), hist_gap: (40, 50) }`;
in general an adjacent range (touching at either end) is unified into one
`Fetching`, and a non-adjacent range *that starts at index ≥ 1* opens a
`FillingHistGap` with the old range in the fetching role (a non-adjacent
range starting at 0 instead panics, see C10). -/
theorem c4_merge_fetched :
    (HistState.merge_fetched (.Fetching (10, 20)) (21, 30) =
        .ok (.Fetching (10, 30)) ∧
      HistState.merge_fetched (.Fetching (10, 20)) (5, 9) =
        .ok (.Fetching (5, 20)) ∧
      HistState.merge_fetched (.Fetching (10, 20)) (40, 50) =
        .ok (.FillingHistGap (40, 50) (10, 20))) ∧
    ∀ a1 a2 b1 b2 : Nat,
      (a1 = b2 + 1 →
        HistState.merge_fetched (.Fetching (a1, a2)) (b1, b2) =
          .ok (.Fetching (b1, a2))) ∧
      (a1 ≠ b2 + 1 → b1 = a2 + 1 →
        HistState.merge_fetched (.Fetching (a1, a2)) (b1, b2) =
          .ok (.Fetching (a1, b2))) ∧
      (a1 ≠ b2 + 1 → b1 ≠ a2 + 1 → 1 ≤ b1 →
        HistState.merge_fetched (.Fetching (a1, a2)) (b1, b2) =
          .ok (.FillingHistGap (b1, b2) (a1, a2))) :=
  ⟨by decide, fun a1 a2 b1 b2 =>
    ⟨merge_fetched_below a1 a2 b1 b2, merge_fetched_above a1 a2 b1 b2,
      merge_fetched_gap a1 a2 b1 b2⟩⟩

/-- C4 witness: the general clauses of `c4_merge_fetched` applied at
concrete ranges. -/
theorem c4_merge_fetched_witness :
    HistState.merge_fetched (.Fetching (7, 9)) (10, 12) =
      .ok (.Fetching (7, 12)) ∧
    HistState.merge_fetched (.Fetching (7, 9)) (20, 25) =
      .ok (.FillingHistGap (20, 25) (7, 9)) :=
  ⟨(c4_merge_fetched.2 7 9 10 12).2.1 (by decide) (by decide),
    (c4_merge_fetched.2 7 9 20 25).2.2 (by decide) (by decide) (by decide)⟩

/-- C10: `merge_fetched` on `Fetching((a1, a2))` with a new range `(0, b2)`
that is not adjacent below (`a1 ≠ b2 + 1`) evaluates `a2 == b1 - 1` with
`b1 = 0`, an unsigned subtraction underflow (checked-arithmetic panic);
`merge_fetched` on a `Fetching` state succeeds whenever the new range is
adjacent below or starts at index ≥ 1. -/
theorem c10_merge_underflow :
    (∀ a1 a2 b2 : Nat, a1 ≠ b2 + 1 →
      HistState.merge_fetched (.Fetching (a1, a2)) (0, b2) =
        .error "attempt to subtract with overflow") ∧
    ∀ a1 a2 b1 b2 : Nat, a1 = b2 + 1 ∨ 1 ≤ b1 →
      ∃ s, HistState.merge_fetched (.Fetching (a1, a2)) (b1, b2) = .ok s := by
  constructor
  · intro a1 a2 b2 h
    simp only [HistState.merge_fetched, HistState.merge_adjacent_ranges, checkedSub]
    rw [if_neg h, if_neg (by omega : ¬ 1 ≤ 0)]
    rfl
  · intro a1 a2 b1 b2 h
    by_cases h1 : a1 = b2 + 1
    · exact ⟨_, merge_fetched_below a1 a2 b1 b2 h1⟩
    · have hb : 1 ≤ b1 := h.resolve_left h1
      by_cases h2 : b1 = a2 + 1
      · exact ⟨_, merge_fetched_above a1 a2 b1 b2 h1 h2⟩
      · exact ⟨_, merge_fetched_gap a1 a2 b1 b2 h1 h2 hb⟩

/-- C10 witness: the underflow panic at `Fetching((10, 20))` with new range
`(0, 7)`, and success at the adjacent range `(21, 30)`. -/
theorem c10_merge_underflow_witness :
    HistState.merge_fetched (.Fetching (10, 20)) (0, 7) =
      .error "attempt to subtract with overflow" ∧
    ∃ s, HistState.merge_fetched (.Fetching (10, 20)) (21, 30) = .ok s :=
  ⟨c10_merge_underflow.1 10 20 7 (by decide),
    c10_merge_underflow.2 10 20 21 30 (.inr (by decide))⟩


/-- Characterisation of `extend_range` when it returns a range: either the
current end equals the endpoint and a backfill page below `cur_start` is
returned, or the current end is below the endpoint and the forward page is
returned. -/
theorem extend_range_ok (lo hi ep a b : Nat)
    (h : extend_range lo hi ep = .ok (some (a, b))) :
    (hi = ep ∧ hi - MIN_HISTORY < lo ∧ 1 ≤ lo ∧
      a = max (lo - MIN_HISTORY) (lo - MAX_PAGE_SIZE) ∧ b = lo - 1) ∨
    (hi < ep ∧ a = hi + 1 ∧ b = min ep (hi + MAX_PAGE_SIZE)) := by
  unfold extend_range at h
  split at h
  · next heq =>
    dsimp only at h
    split at h
    · next hlt =>
      simp only [checkedSub] at h
      split at h
      · next hle =>
        rw [exbind_ok] at h
        left
        injection h with h
        injection h with h
        injection h with h1 h2
        exact ⟨heq, hlt, hle, h1.symm, h2.symm⟩
      · rw [exbind_err] at h
        exact absurd h (by simp)
    · exact absurd h (by simp)
  · next hne =>
    split at h
    · next hlt =>
      right
      injection h with h
      injection h with h
      injection h with h1 h2
      exact ⟨hlt, h1.symm, h2.symm⟩
    · exact absurd h (by simp)



theorem merge_fillgap_backfill (a0 b0 c0 d0 s : Nat) (h1 : 1 ≤ a0)
    (hs : s ≤ d0) (hbc : b0 + 1 = c0) :
    HistState.merge_fetched (.FillingHistGap (a0, b0) (c0, d0)) (s, a0 - 1) =
      .ok (.Fetching (s, d0)) := by
  simp only [HistState.merge_fetched, HistState.merge_adjacent_ranges, checkedSub]
  rw [if_pos (by omega : a0 = a0 - 1 + 1), exbind_ok]
  dsimp only
  rw [if_neg (by omega : ¬ s = d0 + 1), if_pos (by omega : 1 ≤ c0), exbind_ok,
    if_pos (by omega : b0 = c0 - 1)]
  rfl

theorem merge_fillgap_forward_complete (a0 b0 c0 d0 e : Nat) (ha : a0 ≤ b0)
    (hbe : b0 + 1 ≤ e) (had : a0 ≤ d0) (hc : 1 ≤ c0) (hec : e = c0 - 1) :
    HistState.merge_fetched (.FillingHistGap (a0, b0) (c0, d0)) (b0 + 1, e) =
      .ok (.Fetching (a0, d0)) := by
  simp only [HistState.merge_fetched, HistState.merge_adjacent_ranges, checkedSub]
  rw [if_neg (by omega : ¬ a0 = e + 1), if_pos (by omega : 1 ≤ b0 + 1),
    exbind_ok, if_pos (by omega : b0 = b0 + 1 - 1), exbind_ok]
  dsimp only
  rw [if_neg (by omega : ¬ a0 = d0 + 1), if_pos hc, exbind_ok, if_pos hec]
  rfl

theorem merge_fillgap_forward_partial (a0 b0 c0 d0 e : Nat) (ha : a0 ≤ b0)
    (hbe : b0 + 1 ≤ e) (had : a0 ≤ d0) (hc : 1 ≤ c0) (hec : e ≠ c0 - 1) :
    HistState.merge_fetched (.FillingHistGap (a0, b0) (c0, d0)) (b0 + 1, e) =
      .ok (.FillingHistGap (a0, e) (c0, d0)) := by
  simp only [HistState.merge_fetched, HistState.merge_adjacent_ranges, checkedSub]
  rw [if_neg (by omega : ¬ a0 = e + 1), if_pos (by omega : 1 ≤ b0 + 1),
    exbind_ok, if_pos (by omega : b0 = b0 + 1 - 1), exbind_ok]
  dsimp only
  rw [if_neg (by omega : ¬ a0 = d0 + 1), if_pos hc, exbind_ok, if_neg hec]
  rfl


example (a b c : Nat) (h : a ≤ c) : max (a - 5) (a - 3) ≤ c := by omega
example (a b : Nat) (h : a + 1 ≤ b) : a + 1 ≤ min b (a + 1000) := by omega

/-- C2 counterexample: the state `Fetching((100, 10))` (an ill-formed range
whose end, 10, is at the highest valid index of a tree of size 11) makes
`next_batch` return `(0, 99)`, whose end 99 exceeds `sth.tree_size - 1 = 10`.
The claim quantifies over all states whose range *ends* are bounded and
therefore fails without a well-formedness hypothesis. -/
theorem c2_counterexample :
    rangesEndBounded (.Fetching (100, 10)) (11 - 1) = true ∧
    next_batch LogTransient.default 11 (.Fetching (100, 10)) =
      .ok (some (0, 99)) ∧
    ¬ (99 ≤ 11 - 1) := by
  decide

/-- C2 (amended): for every log state whose stored ranges are well formed
(`start ≤ end`, and in `FillingHistGap` the gap ends before the fetching
range starts) and end at or below `sth.tree_size - 1`, any range `(a, b)`
returned by `next_batch` satisfies `b ≤ sth.tree_size - 1`, and merging it
with `merge_fetched` succeeds and yields a state whose ranges again are well
formed and end at or below `sth.tree_size - 1`; hence `fetched_to` never
extends past the highest valid tree index. -/
theorem c2_fetched_to_bounded (tr : LogTransient) (ts0 : Nat) (s : HistState)
    (a b : Nat)
    (hwf : wellFormed s = true) (hb : rangesEndBounded s (ts0 - 1) = true)
    (hnb : next_batch tr ts0 s = .ok (some (a, b))) :
    b ≤ ts0 - 1 ∧ ∃ s', HistState.merge_fetched s (a, b) = .ok s' ∧
      rangesEndBounded s' (ts0 - 1) = true ∧ wellFormed s' = true := by
  cases s with
  | NothingFetched =>
    simp only [next_batch, checkedSub] at hnb
    split at hnb
    all_goals split at hnb
    case isTrue.isFalse | isFalse.isFalse =>
      rw [exbind_err] at hnb
      exact absurd hnb (by simp)
    all_goals
      rw [exbind_ok] at hnb
      injection hnb with h
      injection h with h
      injection h with h1 h2
      refine ⟨by omega, .Fetching (a, b), rfl, ?_, ?_⟩
      · simp only [rangesEndBounded, decide_eq_true_eq]
        omega
      · simp only [wellFormed, decide_eq_true_eq]
        omega
  | Fetching r =>
    obtain ⟨lo, hi⟩ := r
    simp only [wellFormed, rangesEndBounded, decide_eq_true_eq] at hwf hb
    have hnb' : extend_range lo hi (ts0 - 1) = .ok (some (a, b)) := hnb
    rcases extend_range_ok lo hi (ts0 - 1) a b hnb' with
      ⟨heq, hlt, hlo, ha, hb2⟩ | ⟨hlt, ha, hb2⟩
    · refine ⟨by omega, .Fetching (a, hi), ?_, ?_, ?_⟩
      · rw [hb2, ha]
        exact merge_fetched_below lo hi _ (lo - 1) (by omega)
      · simp only [rangesEndBounded, decide_eq_true_eq]
        omega
      · simp only [wellFormed, decide_eq_true_eq]
        simp only [MIN_HISTORY, MAX_PAGE_SIZE] at ha
        omega
    · simp only [MIN_HISTORY, MAX_PAGE_SIZE] at ha hb2
      refine ⟨by omega, .Fetching (lo, b),
        merge_fetched_above lo hi a b (by omega) (by omega), ?_, ?_⟩
      · simp only [rangesEndBounded, decide_eq_true_eq]
        omega
      · simp only [wellFormed, decide_eq_true_eq]
        omega
  | FillingHistGap g f =>
    obtain ⟨a0, b0⟩ := g
    obtain ⟨c0, d0⟩ := f
    simp only [wellFormed, rangesEndBounded, Bool.and_eq_true,
      decide_eq_true_eq] at hwf hb
    obtain ⟨⟨ha0, hc0⟩, hbc⟩ := hwf
    obtain ⟨hbts, hdts⟩ := hb
    have hstep : next_batch tr ts0 (.FillingHistGap (a0, b0) (c0, d0)) =
        checkedSub c0 1 >>= fun e => extend_range a0 b0 e := rfl
    rw [hstep, checkedSub, if_pos (by omega : 1 ≤ c0), exbind_ok] at hnb
    rcases extend_range_ok a0 b0 (c0 - 1) a b hnb with
      ⟨heq, hlt, h1, ha, hb2⟩ | ⟨hlt, ha, hb2⟩
    · refine ⟨by omega, .Fetching (a, d0), ?_, ?_, ?_⟩
      · rw [hb2]
        refine merge_fillgap_backfill a0 b0 c0 d0 a h1 ?_ (by omega)
        simp only [MIN_HISTORY, MAX_PAGE_SIZE] at ha
        omega
      · simp only [rangesEndBounded, decide_eq_true_eq]
        omega
      · simp only [wellFormed, decide_eq_true_eq]
        simp only [MIN_HISTORY, MAX_PAGE_SIZE] at ha
        omega
    · simp only [MIN_HISTORY, MAX_PAGE_SIZE] at ha hb2
      by_cases hce : b = c0 - 1
      · refine ⟨by omega, .Fetching (a0, d0), ?_, ?_, ?_⟩
        · rw [ha]
          exact merge_fillgap_forward_complete a0 b0 c0 d0 b ha0 (by omega)
            (by omega) (by omega) hce
        · simp only [rangesEndBounded, decide_eq_true_eq]
          omega
        · simp only [wellFormed, decide_eq_true_eq]
          omega
      · refine ⟨by omega, .FillingHistGap (a0, b) (c0, d0), ?_, ?_, ?_⟩
        · rw [ha]
          exact merge_fillgap_forward_partial a0 b0 c0 d0 b ha0 (by omega)
            (by omega) (by omega) hce
        · simp only [rangesEndBounded, Bool.and_eq_true, decide_eq_true_eq]
          omega
        · simp only [wellFormed, Bool.and_eq_true, decide_eq_true_eq]
          omega

/-- C2 witness: the bound instantiated on the backfill step of the
`tree_size = 10_000` trace. -/
theorem c2_fetched_to_bounded_witness :
    8999 ≤ 10000 - 1 ∧ ∃ s',
      HistState.merge_fetched (.Fetching (9000, 9999)) (8000, 8999) = .ok s' ∧
      rangesEndBounded s' (10000 - 1) = true ∧ wellFormed s' = true :=
  c2_fetched_to_bounded LogTransient.default 10000 (.Fetching (9000, 9999))
    8000 8999 (by decide) (by decide) (by decide)

/-- C5: the row the pipeline writes to `log_entries` does not record the
entry's tree index.  The prepared insert binds exactly the three columns
`(leaf_hash, log_id, ts)` — `idx` is not among them, the bound parameter
list has length 3, and it is independent of the entry's tree index — while
the spec's insert (and the query side, `SELECT log_id, idx FROM
log_entries` in `belvi_frontend`) expects the four columns
`(leaf_hash, log_id, ts, idx)`. -/
theorem c5_log_entries_row_drops_idx :
    ("idx" ∉ logEntriesInsertColumns) ∧
    logEntriesInsertColumns ≠ specLogEntriesInsertColumns ∧
    (∀ lh n t i j, entryInsertParams lh n t i = entryInsertParams lh n t j) ∧
    (∀ lh n t i, (entryInsertParams lh n t i).length = 3) ∧
    entryInsertParams [0xab] 7 1234 9000 =
      [.blob [0xab], .int 7, .int 1234] :=
  ⟨by decide, by decide, fun _ _ _ _ _ => rfl, fun _ _ _ _ => rfl, rfl⟩

/-- C6 counterexample: an STH fetch failure is not survived — `update_sths`
panics (`expect("Failed to fetch log STH, bailing")`), so the failure is
fatal to the whole process, not just to the round. -/
theorem c6_counterexample :
    update_sth_one (.error .BadStatus) none =
      .error "Failed to fetch log STH, bailing" ∧
    (update_sth_one (.error .BadStatus) none).isOk = false := by
  decide

/-- C6 (amended): when fetching the current STH of any active log fails
(transport or deserialize error), `update_sths` panics and terminates the
whole process; by contrast an append-only violation in a successfully
fetched STH is only error-logged (the `Bool` flag) and the new STH is
stored without crashing. -/
theorem c6_sth_failure_fatal :
    (∀ (e : FetchError) (cur : Option LogSth),
      update_sth_one (.error e) cur =
        .error "Failed to fetch log STH, bailing") ∧
    (∀ (new_sth old_sth : LogSth),
      update_sth_one (.ok new_sth) (some old_sth) =
        .ok (new_sth, decide (old_sth.tree_size > new_sth.tree_size) ||
          decide (old_sth.timestamp > new_sth.timestamp))) :=
  ⟨fun _ _ => rfl, fun _ _ => rfl⟩

/-- C7: the `TimestampedEntry` / `MerkleTreeLeaf` parsers are not total.
The 12-byte all-zero payload passes the `len <= 11` guard with
`entry_type = 0` and then panics slicing `v[13..]`; a 14-byte all-zero leaf
propagates the same panic through `MerkleTreeLeaf::parse`; a 44-byte
precert payload passes the `len <= 43` guard and panics slicing `v[45..]`;
a precert payload with a non-zero trailing CT-extensions byte hits the
`assert!(.., "TODO: extensions")` panic.  Short payloads below the guards
do yield the named error, as the last conjunct shows. -/
theorem c7_parser_panics :
    TimestampedEntry.parse (List.replicate 12 0) =
      .panic "range start index out of range" ∧
    MerkleTreeLeaf.parse (List.replicate 14 0) =
      .panic "range start index out of range" ∧
    TimestampedEntry.parse (List.replicate 9 0 ++ [1] ++ List.replicate 34 0) =
      .panic "range start index out of range" ∧
    TimestampedEntry.parse
        (List.replicate 9 0 ++ [1] ++ List.replicate 35 0 ++ [1]) =
      .panic "TODO: extensions" ∧
    TimestampedEntry.parse (List.replicate 5 0) =
      .err .TimestampedEntryTooShort := by
  decide

/-- C9 counterexample: a read-only log with a temporal interval.  With
`now = 1700000000` (after the 2022-12-06 switch), a log in state
`ReadOnly` with timestamp `1000000000` (so `ts + 398 days ≤ now`) and a
temporal interval ending at `1800000000` is fetchable per the code (only
`now < interval.end` is checked when an interval is present), but not per
the claim's predicate, whose read-only clause applies unconditionally. -/
theorem c9_counterexample :
    Log.has_active_certs
      ⟨.ReadOnly 1000000000, some ⟨0, 1800000000⟩⟩ 1700000000 = true ∧
    ¬ specFetchable
      ⟨.ReadOnly 1000000000, some ⟨0, 1800000000⟩⟩ 1700000000 := by
  refine ⟨by decide, fun h => absurd h.2.2 (by decide)⟩

/-- C9 (amended): for every log and time `now`, `has_active_certs(now)` is
true iff the state is not retired, AND (no temporal interval OR `now` is
before the interval's exclusive end), AND — *only when the log has no
temporal interval* — a read-only state implies its timestamp plus the
maximum certificate duration (825 days before 2022-12-06, 398 days after)
is later than `now`. -/
theorem c9_has_active_certs (log : Log) (now : Int) :
    log.has_active_certs now = true ↔
      (log.state.isRetired = false ∧
        (match log.temporal_interval with
          | none => True
          | some ti => now < ti.end_exclusive) ∧
        (log.temporal_interval = none →
          match log.state with
          | .ReadOnly ts => ts + maxCertDurationDays now * 86400 > now
          | _ => True)) := by
  obtain ⟨st, ti⟩ := log
  cases ti with
  | none =>
    cases st <;>
      simp [Log.has_active_certs, LogState.isRetired, no_new_valid,
        maxCertDurationDays, NEW_MAX_CERT_DURATION, OLD_MAX_CERT_DURATION,
        decide_eq_true_eq]
  | some t =>
    cases st <;>
      simp [Log.has_active_certs, LogState.isRetired, decide_eq_true_eq]


/-- The imperative SAN loop equals its declarative description: the
accepted values of the prefix before the first loop-stopping element. -/
theorem san_loop_eq (elems : List BerValue) : san_loop elems = san_accepted elems := by
  induction elems with
  | nil => rfl
  | cons v rest ih =>
    cases h : take_tagged_ber v with
    | ok dom =>
      simp [san_loop, san_accepted, List.takeWhile_cons, isMalformedElem, h,
        Except.toOption, ih]
    | error e =>
      cases e <;>
        simp [san_loop, san_accepted, List.takeWhile_cons, isMalformedElem, h,
          Except.toOption, ih]

theorem cn_rdn_foldl (rdn : List AttributeTypeAndValue) (acc : List (List Nat)) :
    rdn.foldl (fun acc2 attr =>
      if attr.typ = [85, 4, 3] then
        match take_tagged_ber attr.value with
        | .ok dom => acc2 ++ [dom]
        | .error _ => acc2
      else acc2) acc =
    acc ++ rdn.filterMap (fun attr =>
      if attr.typ = [85, 4, 3] then (take_tagged_ber attr.value).toOption
      else none) := by
  induction rdn generalizing acc with
  | nil => simp
  | cons attr rest ih =>
    simp only [List.foldl_cons, List.filterMap_cons]
    by_cases ht : attr.typ = [85, 4, 3]
    · cases h : take_tagged_ber attr.value with
      | ok dom => simp [ht, h, ih, Except.toOption]
      | error e => simp [ht, h, ih, Except.toOption]
    · simp [ht, ih]

theorem cn_subject_foldl (sub : List (List AttributeTypeAndValue))
    (acc : List (List Nat)) :
    sub.foldl (fun acc rdn =>
      rdn.foldl (fun acc2 attr =>
        if attr.typ = [85, 4, 3] then
          match take_tagged_ber attr.value with
          | .ok dom => acc2 ++ [dom]
          | .error _ => acc2
        else acc2) acc) acc =
    acc ++ sub.flatMap (fun rdn =>
      rdn.filterMap (fun attr =>
        if attr.typ = [85, 4, 3] then (take_tagged_ber attr.value).toOption
        else none)) := by
  induction sub generalizing acc with
  | nil => simp
  | cons rdn rest ih =>
    simp only [List.foldl_cons, List.flatMap_cons]
    rw [cn_rdn_foldl, ih, List.append_assoc]

theorem san_exts_foldl (exts : List Extension) (acc : List (List Nat)) :
    exts.foldl (fun acc ext =>
      if ext.id = [85, 29, 17] then
        match ext.value with
        | .seq elems => acc ++ san_loop elems
        | .notSeq => acc
      else acc) acc =
    acc ++ exts.flatMap (fun ext =>
      if ext.id = [85, 29, 17] then
        match ext.value with
        | .seq elems => san_accepted elems
        | .notSeq => []
      else []) := by
  induction exts generalizing acc with
  | nil => simp
  | cons ext rest ih =>
    simp only [List.foldl_cons, List.flatMap_cons]
    by_cases hi : ext.id = [85, 29, 17]
    · cases hv : ext.value with
      | seq elems =>
        simp only [hi, hv, if_pos]
        rw [ih, san_loop_eq, List.append_assoc]
      | notSeq =>
        simp only [hi, hv, if_pos]
        rw [ih]
        simp
    · simp only [hi, if_neg, ite_false]
      rw [ih]
      simp

/-- C8: for every TBS certificate, domain extraction returns the
commonName values accepted by the tagged-BER rule in subject traversal
order, followed by the accepted SAN values (email/DNS/URI tags, up to the
first loop-stopping element) in SEQUENCE order, with duplicates preserved
(list append, no dedup); in particular the multi-SAN cert `ttw.der`
decodes to exactly `["*.smitop.com", "sni.cloudflaressl.com",
"smitop.com"]` in that order. -/
theorem c8_domain_order :
    (∀ cert : TbsCertificate,
      get_cert_domains cert = cn_domains cert ++ san_domains cert) ∧
    get_cert_domains ttwTbs =
      [strBytes "*.smitop.com", strBytes "sni.cloudflaressl.com",
        strBytes "smitop.com"] := by
  constructor
  · intro cert
    obtain ⟨sub, exts⟩ := cert
    cases exts with
    | none =>
      simpa [get_cert_domains, cn_domains, san_domains] using
        cn_subject_foldl sub []
    | some exts =>
      simp only [get_cert_domains, cn_domains, san_domains]
      rw [cn_subject_foldl, san_exts_foldl]
      simp
  · rfl

end Belvi
